import Mathlib

/-!
Verification development for the dining-philosophers simulator
(`dining_philosophers.py`).  Pure, executable shallow embeddings of the
program's data model and control flow are given first; the per-claim
theorems follow.  Sleep durations are embedded in milliseconds as natural
numbers (the source uses seconds as floats: 0.1 s think, 0.2 s eat,
0.5 s deliberate pause, 2.0 s join grace period).
-/

namespace DiningPhil

/-- The `Strategy` enum of the source (lines 24-27): the three
resource-acquisition strategies selectable by name. -/
inductive Strategy where
  | deadlock
  | hierarchy
  | asymmetric
deriving DecidableEq, Repr

/-- A `Fork` (source lines 44-52): a shared resource identified by `id`.
The `threading.Lock` it carries is modelled separately by the lock
transition systems below; the data model only needs the id. -/
structure Fork where
  id : Nat
deriving DecidableEq, Repr

/-- Observable actions a philosopher performs, in program order, while
executing one strategy body.  `acquire`/`release` are entry/exit of a
`with fork.lock:` block, `sleep ms` is `time.sleep` (milliseconds), and
`eatMeal` is the `self.meals_eaten += 1` statement inside `eat`. -/
inductive Event where
  | acquire (f : Fork)
  | release (f : Fork)
  | sleep (ms : Nat)
  | eatMeal
deriving DecidableEq, Repr

/-- `Philosopher.eat` (source lines 81-86): sleep 0.2 s, then increment
`meals_eaten` by one.  (Log lines are ignored throughout.) -/
def eatEvents : List Event := [Event.sleep 200, Event.eatMeal]

/-- `Philosopher.deadlock_strategy` (source lines 107-129): acquire the
left fork, sleep 0.5 s while holding it, acquire the right fork, eat,
then the two `with` blocks close: release right, release left. -/
def deadlock_strategy (left_fork right_fork : Fork) : List Event :=
  [Event.acquire left_fork, Event.sleep 500, Event.acquire right_fork]
    ++ eatEvents
    ++ [Event.release right_fork, Event.release left_fork]

/-- `Philosopher.hierarchy_strategy` (source lines 134-161):
`first_fork = min(left, right, key id)`, `second_fork = max(left, right,
key id)` (Python `min`/`max` keep the earlier argument on a tie), then
acquire first, acquire second, eat, release second, release first. -/
def hierarchy_strategy (left_fork right_fork : Fork) : List Event :=
  let first_fork := if right_fork.id < left_fork.id then right_fork else left_fork
  let second_fork := if left_fork.id < right_fork.id then right_fork else left_fork
  [Event.acquire first_fork, Event.acquire second_fork]
    ++ eatEvents
    ++ [Event.release second_fork, Event.release first_fork]

/-- `Philosopher.asymmetric_strategy` (source lines 166-202): an even-id
philosopher acquires left then right and releases right then left; an
odd-id philosopher acquires right then left and releases left then
right. -/
def asymmetric_strategy (phil_id : Nat) (left_fork right_fork : Fork) :
    List Event :=
  if phil_id % 2 = 0 then
    [Event.acquire left_fork, Event.acquire right_fork]
      ++ eatEvents
      ++ [Event.release right_fork, Event.release left_fork]
  else
    [Event.acquire right_fork, Event.acquire left_fork]
      ++ eatEvents
      ++ [Event.release left_fork, Event.release right_fork]

/-- The strategy dispatch in `Philosopher.run` (source lines 95-100). -/
def strategyEvents (strategy : Strategy) (phil_id : Nat)
    (left_fork right_fork : Fork) : List Event :=
  match strategy with
  | Strategy.deadlock => deadlock_strategy left_fork right_fork
  | Strategy.hierarchy => hierarchy_strategy left_fork right_fork
  | Strategy.asymmetric => asymmetric_strategy phil_id left_fork right_fork

/-- Number of `meals_eaten` increments performed by a list of events. -/
def mealCount : List Event → Nat
  | [] => 0
  | Event.eatMeal :: rest => mealCount rest + 1
  | _ :: rest => mealCount rest

/-- A `Philosopher`'s data fields (source lines 61-70). -/
structure Philosopher where
  id : Nat
  left_fork : Fork
  right_fork : Fork
  strategy : Strategy
  duration : Nat
  meals_eaten : Nat
  running : Bool
deriving DecidableEq, Repr

/-- `Philosopher.__init__` (source lines 61-70): records id, the two fork
references, strategy and duration; `meals_eaten` starts at 0 and
`running` at `True`. -/
def Philosopher.init (phil_id : Nat) (left_fork right_fork : Fork)
    (strategy : Strategy) (duration : Nat) : Philosopher :=
  { id := phil_id, left_fork := left_fork, right_fork := right_fork,
    strategy := strategy, duration := duration, meals_eaten := 0,
    running := true }

/-- A `DiningTable`'s data fields (source lines 215-220). -/
structure DiningTable where
  num_philosophers : Nat
  strategy : Strategy
  duration : Nat
  forks : List Fork
  philosophers : List Philosopher
deriving Repr

/-- `DiningTable.__init__` followed by `DiningTable.setup` (source lines
215-256): create `num_philosophers` forks with ids `0..n-1`, then for
each `i` a philosopher with `left_fork = forks[i]` and
`right_fork = forks[(i+1) % num_philosophers]`.  There is no validation
of `num_philosophers`: `setup` succeeds for every count. -/
def DiningTable.setup (num_philosophers : Nat) (strategy : Strategy)
    (duration : Nat) : DiningTable :=
  let forks := (List.range num_philosophers).map Fork.mk
  let philosophers := (List.range num_philosophers).map (fun i =>
    Philosopher.init i (forks.getD i (Fork.mk 0))
      (forks.getD ((i + 1) % num_philosophers) (Fork.mk 0))
      strategy duration)
  { num_philosophers := num_philosophers, strategy := strategy,
    duration := duration, forks := forks, philosophers := philosophers }

/-- The neighbor-assignment topology of a table: for each philosopher,
the triple (philosopher id, left fork id, right fork id). -/
def DiningTable.topology (t : DiningTable) : List (Nat × Nat × Nat) :=
  t.philosophers.map (fun p => (p.id, p.left_fork.id, p.right_fork.id))

/-- The module constant `MODE` (source line 18): the default strategy
name used when no command-line argument is given. -/
def MODE : String := "deadlock"

/-- The `Strategy(strategy_name)` enum lookup in `main` (source lines
334-339): maps a name to its strategy, or fails (`ValueError`). -/
def parseStrategy (s : String) : Option Strategy :=
  if s = "deadlock" then some Strategy.deadlock
  else if s = "hierarchy" then some Strategy.hierarchy
  else if s = "asymmetric" then some Strategy.asymmetric
  else none

/-- ASCII lowercasing of one character, as Python's `str.lower` acts on
the ASCII strategy names. -/
def lowerChar (c : Char) : Char :=
  if 65 ≤ c.toNat ∧ c.toNat ≤ 90 then Char.ofNat (c.toNat + 32) else c

/-- ASCII lowercasing of a string (`sys.argv[1].lower()`). -/
def lowerString (s : String) : String :=
  String.mk (s.data.map lowerChar)

/-- The strategy-name selection in `main` (source lines 329-331): the
first command-line argument, lowercased, or the `MODE` default when no
argument is given.  `argv` here is `sys.argv[1:]`. -/
def strategyName (argv : List String) : String :=
  match argv with
  | [] => MODE
  | a :: _ => lowerString a

/-- Outcome of the simulator process: it terminates with an exit
status, or it never terminates. -/
inductive ProcessOutcome where
  | exits (status : Nat)
  | hangs
deriving DecidableEq, Repr

/-- The process-level outcome of `main` (source lines 325-349).
`numPhilosophers` is the `NUM_PHILOSOPHERS` constant (rewritten by the
test harness) and `aliveCount` the number of philosopher threads still
blocked after the grace-period join in `start`.  An unrecognised
strategy name reaches `sys.exit(1)` before any thread starts.
Otherwise `setup`, `start` and `report_results` run to completion —
none of them validates the philosopher count or calls `sys.exit` — and
`main` returns.  The philosopher threads are created with the default
`daemon=False`, so interpreter shutdown joins them: the process
terminates (with status 0) only when every philosopher thread has
finished; if any philosopher is still blocked on a fork lock — the
deadlock strategy by design, or `num_philosophers = 1`, where the
single philosopher blocks forever re-acquiring its own non-reentrant
lock — the process never exits. -/
def mainOutcome (numPhilosophers aliveCount : Nat) (argv : List String) :
    ProcessOutcome :=
  match parseStrategy (strategyName argv) with
  | none => ProcessOutcome.exits 1
  | some _ =>
      if aliveCount = 0 then ProcessOutcome.exits 0 else ProcessOutcome.hangs

/-- The deadlock verdict of `DiningTable.report_results` (source lines
300-317): deadlock is reported iff at least one philosopher thread is
still alive after the grace-period join. -/
def deadlock_detected (aliveCount : Nat) : Bool :=
  decide (0 < aliveCount)

/-- Indexing the fork list built by `setup`: position `i` holds the fork
with id `i`. -/
theorem range_map_fork_getD (n i : Nat) (h : i < n) :
    ((List.range n).map Fork.mk).getD i (Fork.mk 0) = Fork.mk i := by
  rw [List.getD_eq_getElem?_getD]
  simp [List.getElem?_range h]

/-- C1: under the hierarchy strategy, for every left/right fork pair with
distinct ids, the fork with the smaller id is acquired first, then the
other; after eating, the second-acquired fork is released before the
first-acquired fork.  (The strategy does not depend on the actor id at
all: `hierarchy_strategy` takes no id.) -/
theorem hierarchy_acquisition_order (l r : Fork) (h : l.id ≠ r.id) :
    hierarchy_strategy l r =
      [Event.acquire (Fork.mk (min l.id r.id)),
       Event.acquire (Fork.mk (max l.id r.id))]
        ++ eatEvents
        ++ [Event.release (Fork.mk (max l.id r.id)),
            Event.release (Fork.mk (min l.id r.id))] := by
  obtain ⟨li⟩ := l
  obtain ⟨ri⟩ := r
  simp only [Fork.mk.injEq] at h
  simp only [hierarchy_strategy, Nat.min_def, Nat.max_def]
  rcases Nat.lt_trichotomy li ri with hlt | heq | hgt
  · simp [Nat.not_lt.2 (Nat.le_of_lt hlt), hlt, Nat.le_of_lt hlt]
  · exact absurd heq h
  · simp [hgt, Nat.not_le.2 hgt, Nat.not_lt.2 (Nat.le_of_lt hgt)]

/-- Witness for C1 at the concrete pair of forks 1 (left) and 0 (right). -/
theorem hierarchy_acquisition_order_witness :
    hierarchy_strategy (Fork.mk 1) (Fork.mk 0) =
      [Event.acquire (Fork.mk (min 1 0)), Event.acquire (Fork.mk (max 1 0))]
        ++ eatEvents
        ++ [Event.release (Fork.mk (max 1 0)),
            Event.release (Fork.mk (min 1 0))] :=
  hierarchy_acquisition_order (Fork.mk 1) (Fork.mk 0) (by decide)

/-- C2: under the asymmetric strategy, an even-id actor acquires left
then right and releases right then left; an odd-id actor acquires right
then left and releases left then right — in each case releases are in
reverse acquisition order. -/
theorem asymmetric_acquisition_order (phil_id : Nat) (l r : Fork) :
    (phil_id % 2 = 0 →
      asymmetric_strategy phil_id l r =
        [Event.acquire l, Event.acquire r] ++ eatEvents
          ++ [Event.release r, Event.release l])
    ∧ (phil_id % 2 = 1 →
      asymmetric_strategy phil_id l r =
        [Event.acquire r, Event.acquire l] ++ eatEvents
          ++ [Event.release l, Event.release r]) := by
  constructor
  · intro h
    simp [asymmetric_strategy, h]
  · intro h
    simp [asymmetric_strategy, h]

/-- Witness for C2 at the even actor id 2 and the odd actor id 3, with
forks 5 (left) and 7 (right). -/
theorem asymmetric_acquisition_order_witness :
    asymmetric_strategy 2 (Fork.mk 5) (Fork.mk 7) =
      [Event.acquire (Fork.mk 5), Event.acquire (Fork.mk 7)] ++ eatEvents
        ++ [Event.release (Fork.mk 7), Event.release (Fork.mk 5)]
    ∧ asymmetric_strategy 3 (Fork.mk 5) (Fork.mk 7) =
      [Event.acquire (Fork.mk 7), Event.acquire (Fork.mk 5)] ++ eatEvents
        ++ [Event.release (Fork.mk 5), Event.release (Fork.mk 7)] :=
  ⟨(asymmetric_acquisition_order 2 (Fork.mk 5) (Fork.mk 7)).1 (by decide),
   (asymmetric_acquisition_order 3 (Fork.mk 5) (Fork.mk 7)).2 (by decide)⟩

/-- C3: under the deadlock strategy the actor always acquires its left
fork first, then pauses for a fixed nonzero duration (0.5 s) while still
holding it, and only after the pause attempts the right fork; the left
fork is released last, after the whole body. -/
theorem deadlock_pause_between_acquires (l r : Fork) :
    ∃ d : Nat, d ≠ 0 ∧
      deadlock_strategy l r =
        [Event.acquire l, Event.sleep d, Event.acquire r]
          ++ eatEvents ++ [Event.release r, Event.release l] :=
  ⟨500, by decide, rfl⟩

/-- C7: under every strategy the events are: some acquire-only prefix
(first acquire, possibly a pause), the second acquire, then unconditional
straight-line code — eat (exactly one `meals_eaten` increment for the
whole body) and the two releases in reverse acquisition order.  No other
event follows the second acquire, so there is no early-exit path and no
fork leak. -/
theorem eat_release_tail (strategy : Strategy) (phil_id : Nat) (l r : Fork) :
    ∃ (a b : Fork) (pre : List Event),
      strategyEvents strategy phil_id l r =
        pre ++ [Event.acquire b] ++ eatEvents
          ++ [Event.release b, Event.release a]
      ∧ Event.acquire a ∈ pre
      ∧ (∀ e ∈ pre, e = Event.acquire a ∨ ∃ ms, e = Event.sleep ms)
      ∧ mealCount (strategyEvents strategy phil_id l r) = 1 := by
  cases strategy with
  | deadlock =>
      refine ⟨l, r, [Event.acquire l, Event.sleep 500], rfl, ?_, ?_, rfl⟩
      · simp
      · intro e he
        simp only [List.mem_cons, List.not_mem_nil, or_false] at he
        rcases he with he | he <;> simp [he]
  | hierarchy =>
      refine ⟨if r.id < l.id then r else l, if l.id < r.id then r else l,
        [Event.acquire (if r.id < l.id then r else l)], ?_, ?_, ?_, ?_⟩
      · simp [strategyEvents, hierarchy_strategy]
      · simp
      · intro e he
        simp only [List.mem_singleton] at he
        simp [he]
      · simp only [strategyEvents, hierarchy_strategy]
        rfl
  | asymmetric =>
      by_cases h : phil_id % 2 = 0
      · refine ⟨l, r, [Event.acquire l], ?_, ?_, ?_, ?_⟩
        · simp [strategyEvents, asymmetric_strategy, h]
        · simp
        · intro e he
          simp only [List.mem_singleton] at he
          simp [he]
        · simp [strategyEvents, asymmetric_strategy, h, mealCount, eatEvents]
      · refine ⟨r, l, [Event.acquire r], ?_, ?_, ?_, ?_⟩
        · simp [strategyEvents, asymmetric_strategy, h]
        · simp
        · intro e he
          simp only [List.mem_singleton] at he
          simp [he]
        · simp [strategyEvents, asymmetric_strategy, h, mealCount, eatEvents]

/-- C8: `setup` creates exactly `n` forks with ids `0..n-1` and exactly
`n` philosophers, and philosopher `i` gets fork `i` as its left resource
and fork `(i+1) % n` as its right resource.  Because `setup` is a pure
function of `(n, strategy, duration)`, two setups with the same
arguments produce this same topology. -/
theorem setup_cyclic_topology (n : Nat) (strategy : Strategy)
    (duration : Nat) :
    (DiningTable.setup n strategy duration).forks
        = (List.range n).map Fork.mk
    ∧ (DiningTable.setup n strategy duration).forks.length = n
    ∧ (DiningTable.setup n strategy duration).philosophers.length = n
    ∧ (DiningTable.setup n strategy duration).topology
        = (List.range n).map (fun i => (i, i, (i + 1) % n)) := by
  refine ⟨rfl, by simp [DiningTable.setup], by simp [DiningTable.setup], ?_⟩
  simp only [DiningTable.topology, DiningTable.setup, List.map_map]
  apply List.map_congr_left
  intro i hi
  rw [List.mem_range] at hi
  have hn : 0 < n := Nat.lt_of_le_of_lt (Nat.zero_le i) hi
  simp [Function.comp, Philosopher.init, List.getD_eq_getElem?_getD,
    List.getElem?_range hi, List.getElem?_range (Nat.mod_lt _ hn)]

/-- C10: `setup` with `num_philosophers = 1` completes without error and
produces exactly one philosopher, with id 0, whose left and right
resources are both the fork with id 0. -/
theorem setup_one_left_eq_right (strategy : Strategy) (duration : Nat) :
    ∃ p : Philosopher,
      (DiningTable.setup 1 strategy duration).philosophers = [p]
      ∧ p.id = 0
      ∧ p.left_fork = Fork.mk 0
      ∧ p.right_fork = Fork.mk 0
      ∧ p.left_fork = p.right_fork :=
  ⟨Philosopher.init 0 (Fork.mk 0) (Fork.mk 0) strategy duration,
    rfl, rfl, rfl, rfl, rfl⟩

/-- Counterexample to C6 as stated: setting up the table with
`num_philosophers = 1` does not fail — `setup` has no validation and no
`InvalidConfiguration` path — and yields a fully configured table with
one fork and one philosopher. -/
theorem setup_one_does_not_fail :
    (DiningTable.setup 1 Strategy.hierarchy 10).philosophers.length = 1
    ∧ (DiningTable.setup 1 Strategy.hierarchy 10).forks.length = 1 := by
  constructor <;> rfl

/-- C6 amended: `setup` accepts fewer than 2 actors: for any
`num_philosophers < 2` it completes normally (no `InvalidConfiguration`
is raised anywhere in the code) and returns a table with exactly that
many philosophers and forks. -/
theorem setup_small_count_succeeds (n : Nat) (strategy : Strategy)
    (duration : Nat) (h : n < 2) :
    (DiningTable.setup n strategy duration).philosophers.length = n
    ∧ (DiningTable.setup n strategy duration).forks.length = n := by
  constructor <;> simp [DiningTable.setup]

/-- Witness for the amended C6 at the concrete count 1. -/
theorem setup_small_count_succeeds_witness :
    1 < 2
    ∧ (DiningTable.setup 1 Strategy.asymmetric 10).philosophers.length = 1
    ∧ (DiningTable.setup 1 Strategy.asymmetric 10).forks.length = 1 :=
  ⟨by decide, setup_small_count_succeeds 1 Strategy.asymmetric 10 (by decide)⟩

/-- Counterexample to C9 as stated: a bad philosopher count is never
validated.  With `NUM_PHILOSOPHERS = 0` (an invalid configuration per
the spec) and a valid strategy name, `setup` creates no threads, every
join succeeds vacuously (`aliveCount = 0` is forced), and the process
exits with the success status 0, not a distinct non-zero status.  And a
run that detects deadlock (`aliveCount = 5` blocked philosophers under
the deadlock strategy) does not exit with the success status either:
the blocked non-daemon threads prevent interpreter shutdown, so the
process never exits at all. -/
theorem count_and_deadlock_exit_counterexample :
    mainOutcome 0 0 ["hierarchy"] = ProcessOutcome.exits 0
    ∧ deadlock_detected 5 = true
    ∧ mainOutcome 5 5 ["deadlock"] = ProcessOutcome.hangs := by
  refine ⟨by decide, by decide, by decide⟩

/-- C9 amended: an invalid strategy name makes the process exit with
the distinct non-zero status 1 before any thread starts; the
philosopher count is never validated and never influences the exit
logic.  A run whose philosopher threads all finish exits with the
success status 0; a run that leaves any philosopher blocked — in
particular every run that detects deadlock — never exits at all,
because the non-daemon philosopher threads block interpreter shutdown.
Deadlock detection is thus reported only as log data, never as an exit
status. -/
theorem exit_status_codes (numPhil aliveCount : Nat) (argv : List String) :
    (parseStrategy (strategyName argv) = none →
        mainOutcome numPhil aliveCount argv = ProcessOutcome.exits 1)
    ∧ (parseStrategy (strategyName argv) ≠ none → aliveCount = 0 →
        mainOutcome numPhil aliveCount argv = ProcessOutcome.exits 0)
    ∧ (parseStrategy (strategyName argv) ≠ none →
        deadlock_detected aliveCount = true →
        mainOutcome numPhil aliveCount argv = ProcessOutcome.hangs)
    ∧ (∀ m, mainOutcome numPhil aliveCount argv
          = mainOutcome m aliveCount argv)
    ∧ ProcessOutcome.exits 1 ≠ ProcessOutcome.exits 0 := by
  cases h : parseStrategy (strategyName argv) <;>
    simp [mainOutcome, h, deadlock_detected, Nat.pos_iff_ne_zero]

/-- Witness for the amended C9: a bogus strategy name exits with 1; a
clean hierarchy run with no blocked philosopher exits with 0; the
deadlock strategy with all 5 philosophers blocked never exits. -/
theorem exit_status_codes_witness :
    mainOutcome 5 0 ["bogus"] = ProcessOutcome.exits 1
    ∧ mainOutcome 5 0 ["hierarchy"] = ProcessOutcome.exits 0
    ∧ mainOutcome 5 5 ["deadlock"] = ProcessOutcome.hangs :=
  ⟨(exit_status_codes 5 0 ["bogus"]).1 (by decide),
   (exit_status_codes 5 0 ["hierarchy"]).2.1 (by decide) rfl,
   (exit_status_codes 5 5 ["deadlock"]).2.2.1 (by decide) (by decide)⟩

/-- The lock-ownership state of a run with `n` philosopher threads: for
each thread, the list of fork ids whose locks it currently holds.  This
is the state of the `threading.Lock` objects inside the `Fork`s (source
lines 44-52). -/
structure LockState (n : Nat) where
  holds : Fin n → List Nat

/-- The initial lock state: no thread holds any fork. -/
def lockInit (n : Nat) : LockState n :=
  ⟨fun _ => []⟩

/-- One lock event under `threading.Lock` semantics: entering a
`with fork.lock:` block (acquire) completes only when no thread holds
that fork's lock, and leaving the block (release) is done by the thread
that holds it.  Every philosopher's behaviour, under each of the three
strategies, is a sequence of such events, so this relation
over-approximates every run of every strategy. -/
inductive LockStep (n : Nat) : LockState n → LockState n → Prop where
  | acquire (s : LockState n) (a : Fin n) (f : Nat)
      (hfree : ∀ b : Fin n, f ∉ s.holds b) :
      LockStep n s ⟨Function.update s.holds a (f :: s.holds a)⟩
  | release (s : LockState n) (a : Fin n) (f : Nat)
      (hmem : f ∈ s.holds a) :
      LockStep n s ⟨Function.update s.holds a ((s.holds a).erase f)⟩

/-- Lock states reachable from the initial state by lock events. -/
inductive LockReachable (n : Nat) : LockState n → Prop where
  | init : LockReachable n (lockInit n)
  | step {s t : LockState n} :
      LockReachable n s → LockStep n s t → LockReachable n t

/-- Mutual exclusion: no fork is held by two distinct threads. -/
def MutualExclusion {n : Nat} (s : LockState n) : Prop :=
  ∀ (f : Nat) (a b : Fin n), f ∈ s.holds a → f ∈ s.holds b → a = b

/-- C4: in every reachable state of every run (any number of threads,
any interleaving, hence any strategy), each fork is held by at most one
philosopher at a time. -/
theorem mutual_exclusion_invariant (n : Nat) (s : LockState n)
    (h : LockReachable n s) : MutualExclusion s := by
  induction h with
  | init =>
      intro f a b ha hb
      simp [lockInit] at ha
  | @step s t hs hstep ih =>
      cases hstep with
      | acquire a f hfree =>
          have key : ∀ (x : Fin n) (g : Nat),
              g ∈ Function.update s.holds a (f :: s.holds a) x →
              (x = a ∧ g = f) ∨ g ∈ s.holds x := by
            intro x g hg
            rw [Function.update_apply] at hg
            split_ifs at hg with hxa
            · rcases List.mem_cons.1 hg with hgf | hg'
              · exact Or.inl ⟨hxa, hgf⟩
              · exact Or.inr (hxa ▸ hg')
            · exact Or.inr hg
          intro g x y hx hy
          rcases key x g hx with ⟨hxa, hgf⟩ | hx'
          · rcases key y g hy with ⟨hya, _⟩ | hy'
            · rw [hxa, hya]
            · exact absurd hy' (hgf ▸ hfree y)
          · rcases key y g hy with ⟨hya, hgf⟩ | hy'
            · exact absurd hx' (hgf ▸ hfree x)
            · exact ih g x y hx' hy'
      | release a f hmem =>
          have key : ∀ (x : Fin n) (g : Nat),
              g ∈ Function.update s.holds a ((s.holds a).erase f) x →
              g ∈ s.holds x := by
            intro x g hg
            rw [Function.update_apply] at hg
            split_ifs at hg with hxa
            · exact hxa ▸ List.mem_of_mem_erase hg
            · exact hg
          intro g x y hx hy
          exact ih g x y (key x g hx) (key y g hy)

/-- Witness for C4 at the initial state of a 2-thread run. -/
theorem mutual_exclusion_invariant_witness :
    MutualExclusion (lockInit 2) :=
  mutual_exclusion_invariant 2 (lockInit 2) LockReachable.init

/-- Control position of one philosopher thread executing the body of
`hierarchy_strategy` (source lines 149-161): about to acquire the first
fork (holding nothing), about to acquire the second (holding the first),
about to leave the inner `with` block (holding both), or about to leave
the outer `with` block (holding the first only). -/
inductive HPhase where
  | toFirst
  | toSecond
  | toRelSecond
  | toRelFirst
deriving DecidableEq, Repr

/-- Global state of a hierarchy run: each philosopher's phase.  Fork
ownership is determined by the phases. -/
def HState (n : Nat) :=
  Fin n → HPhase

/-- The first fork acquired by philosopher `i` under the hierarchy
strategy: with `left = i` and `right = (i+1) % n` as assigned by
`setup`, this is `min(left, right, key id)` exactly as computed on
source line 140. -/
def firstFork (n : Nat) (i : Fin n) : Nat :=
  if (i.val + 1) % n < i.val then (i.val + 1) % n else i.val

/-- The second fork acquired by philosopher `i` under the hierarchy
strategy: `max(left, right, key id)`, source line 141. -/
def secondFork (n : Nat) (i : Fin n) : Nat :=
  if i.val < (i.val + 1) % n then (i.val + 1) % n else i.val

/-- The trace embedding of `hierarchy_strategy` on the forks `setup`
assigns to philosopher `i` acquires exactly `firstFork`, then
`secondFork`, and releases them in reverse order: the transition system
below follows that event order. -/
theorem hierarchy_strategy_fork_order (n : Nat) (i : Fin n) :
    hierarchy_strategy (Fork.mk i.val) (Fork.mk ((i.val + 1) % n)) =
      [Event.acquire (Fork.mk (firstFork n i)),
       Event.acquire (Fork.mk (secondFork n i))]
        ++ eatEvents
        ++ [Event.release (Fork.mk (secondFork n i)),
            Event.release (Fork.mk (firstFork n i))] := by
  simp only [hierarchy_strategy, firstFork, secondFork]
  split_ifs <;> simp_all

/-- Fork ownership in a hierarchy run: philosopher `i` holds its first
fork in every phase after `toFirst`, and its second fork exactly in
phase `toRelSecond`. -/
def hHolds {n : Nat} (s : HState n) (i : Fin n) (f : Nat) : Prop :=
  (s i ≠ HPhase.toFirst ∧ f = firstFork n i)
  ∨ (s i = HPhase.toRelSecond ∧ f = secondFork n i)

/-- One step of a hierarchy run: a philosopher acquires its first or
second fork (possible only while no thread holds it — `threading.Lock`
semantics), or performs an always-enabled exit of a `with` block,
releasing the second then the first fork. -/
inductive HStep (n : Nat) : HState n → HState n → Prop where
  | acq1 (s : HState n) (i : Fin n) (hpc : s i = HPhase.toFirst)
      (hfree : ∀ j : Fin n, ¬ hHolds s j (firstFork n i)) :
      HStep n s (Function.update s i HPhase.toSecond)
  | acq2 (s : HState n) (i : Fin n) (hpc : s i = HPhase.toSecond)
      (hfree : ∀ j : Fin n, ¬ hHolds s j (secondFork n i)) :
      HStep n s (Function.update s i HPhase.toRelSecond)
  | rel2 (s : HState n) (i : Fin n) (hpc : s i = HPhase.toRelSecond) :
      HStep n s (Function.update s i HPhase.toRelFirst)
  | rel1 (s : HState n) (i : Fin n) (hpc : s i = HPhase.toRelFirst) :
      HStep n s (Function.update s i HPhase.toFirst)

/-- A deadlocked hierarchy state: no philosopher can take any step. -/
def HDeadlocked (n : Nat) (s : HState n) : Prop :=
  ∀ t : HState n, ¬ HStep n s t

/-- For at least 2 philosophers the two forks of each philosopher have
distinct ids, so the first (smaller) is strictly below the second. -/
theorem firstFork_lt_secondFork (n : Nat) (hn : 2 ≤ n) (i : Fin n) :
    firstFork n i < secondFork n i := by
  have hi : i.val < n := i.isLt
  have hne : (i.val + 1) % n ≠ i.val := by
    rcases Nat.lt_or_ge (i.val + 1) n with h | h
    · rw [Nat.mod_eq_of_lt h]
      omega
    · have hvn : i.val + 1 = n := by omega
      rw [hvn, Nat.mod_self]
      omega
  have key : ∀ a b : Nat, b ≠ a →
      (if b < a then b else a) < (if a < b then b else a) := by
    intro a b hab
    split_ifs <;> omega
  exact key i.val ((i.val + 1) % n) hne

/-- C5: for every number of philosophers `n ≥ 2`, no state of the
hierarchy transition system is deadlocked — the low-to-high total order
on fork ids makes a circular wait impossible, so a philosopher can
always proceed and none stays blocked forever.  (The argument: releases
are always enabled; if some philosopher holds its first fork, the one
holding the largest-id held fork finds its second fork free, because
every held fork is some philosopher's first fork and first < second;
and if nothing is held, any philosopher can take its first fork.) -/
theorem hierarchy_no_deadlock (n : Nat) (hn : 2 ≤ n) (s : HState n) :
    ¬ HDeadlocked n s := by
  intro hdl
  have hnotrel2 : ∀ i, s i ≠ HPhase.toRelSecond := fun i h =>
    hdl _ (HStep.rel2 s i h)
  have hnotrel1 : ∀ i, s i ≠ HPhase.toRelFirst := fun i h =>
    hdl _ (HStep.rel1 s i h)
  by_cases hsec : ∃ i, s i = HPhase.toSecond
  · obtain ⟨i0, hi0⟩ := hsec
    have hne : (Finset.univ.filter
        (fun i => s i = HPhase.toSecond)).Nonempty := ⟨i0, by simp [hi0]⟩
    obtain ⟨j, hj, hjmax⟩ :=
      Finset.exists_max_image _ (fun i => firstFork n i) hne
    rw [Finset.mem_filter] at hj
    have hjpc : s j = HPhase.toSecond := hj.2
    have hfree : ∀ k, ¬ hHolds s k (secondFork n j) := by
      intro k hk
      rcases hk with ⟨hkpc, hkeq⟩ | ⟨hkpc, _⟩
      · have hk2 : s k = HPhase.toSecond := by
          cases hks : s k
          · exact absurd hks hkpc
          · rfl
          · exact absurd hks (hnotrel2 k)
          · exact absurd hks (hnotrel1 k)
        have hkmem : k ∈ Finset.univ.filter
            (fun i => s i = HPhase.toSecond) := by simp [hk2]
        have hle := hjmax k hkmem
        have hlt := firstFork_lt_secondFork n hn j
        simp only at hle
        omega
      · exact hnotrel2 k hkpc
    exact hdl _ (HStep.acq2 s j hjpc hfree)
  · push_neg at hsec
    have hall : ∀ i, s i = HPhase.toFirst := by
      intro i
      cases hi : s i
      · rfl
      · exact absurd hi (hsec i)
      · exact absurd hi (hnotrel2 i)
      · exact absurd hi (hnotrel1 i)
    have hfree : ∀ j, ¬ hHolds s j (firstFork n ⟨0, by omega⟩) := by
      intro j hj
      rcases hj with ⟨hjpc, _⟩ | ⟨hjpc, _⟩
      · exact hjpc (hall j)
      · rw [hall j] at hjpc
        exact HPhase.noConfusion hjpc
    exact hdl _ (HStep.acq1 s ⟨0, by omega⟩ (hall ⟨0, by omega⟩) hfree)

/-- Witness for C5 at the concrete run of 2 philosophers in the initial
state. -/
theorem hierarchy_no_deadlock_witness :
    2 ≤ 2 ∧ ¬ HDeadlocked 2 (fun _ => HPhase.toFirst) :=
  ⟨by decide, hierarchy_no_deadlock 2 (by decide) (fun _ => HPhase.toFirst)⟩

end DiningPhil
